import Mathlib

/-
Formal model of the classification / deduplication / confidence-interval core
of the industrial-vacancies analysis repository.

Modelling conventions:
- Python floats are modelled as exact rationals extended with a NaN element
  (`PFloat`).  Arithmetic propagates NaN the way IEEE floats do, and every
  comparison involving NaN is false, as in Python.  The ordering facts proved
  here are insensitive to rounding, so exact rational arithmetic is a faithful
  idealisation.
- Calls into external numeric libraries (numpy's sqrt, scipy's t / normal
  quantile functions, hashlib's md5) are modelled as explicit function
  parameters; theorems assume only elementary facts about them (for example
  that a square root is nonnegative), and witnesses instantiate them with
  concrete rational stand-ins defined below.
- Vacancy records are modelled by the fields the analysed code reads: the
  external identifier (which in the JSON inputs may be missing, a string, or
  an integer) together with the title / employer / region text fields.
-/

/-- A Python float value: either NaN or a finite value (modelled exactly). -/
inductive PFloat where
  | nan : PFloat
  | val : ℚ → PFloat
deriving DecidableEq, Repr

namespace PFloat

/-- Whether the value is NaN (pandas `isna`). -/
def isNan : PFloat → Bool
  | nan => true
  | val _ => false

/-- Float addition: NaN propagates. -/
def add : PFloat → PFloat → PFloat
  | val a, val b => val (a + b)
  | _, _ => nan

/-- Float subtraction: NaN propagates. -/
def sub : PFloat → PFloat → PFloat
  | val a, val b => val (a - b)
  | _, _ => nan

/-- Float multiplication: NaN propagates. -/
def mul : PFloat → PFloat → PFloat
  | val a, val b => val (a * b)
  | _, _ => nan

/-- Float division: NaN propagates; a zero divisor yields a non-finite result,
collapsed to NaN here (no claim exercises division by zero with a finite
dividend). -/
def div : PFloat → PFloat → PFloat
  | val a, val b => if b = 0 then nan else val (a / b)
  | _, _ => nan

/-- Python `x <= y` on floats: any comparison with NaN is false. -/
def leB : PFloat → PFloat → Bool
  | val a, val b => decide (a ≤ b)
  | _, _ => false

/-- Python `x < y` on floats: any comparison with NaN is false. -/
def ltB : PFloat → PFloat → Bool
  | val a, val b => decide (a < b)
  | _, _ => false

/-- Extract the finite value, if any. -/
def toRat : PFloat → Option ℚ
  | nan => none
  | val q => some q

end PFloat

/-- Result dictionary of `calculate_confidence_interval`. -/
structure CIResult where
  mean : PFloat
  std : PFloat
  n : ℕ
  sem : PFloat
  ci_lower : PFloat
  ci_upper : PFloat
  margin_of_error : PFloat
  confidence_level : ℚ
deriving DecidableEq, Repr

/-- The zero-filled degenerate dictionary returned for an empty cleaned sample
(source lines 42-52 of error_estimation.py). -/
def zeroCI (confidence_level : ℚ) : CIResult :=
  ⟨PFloat.val 0, PFloat.val 0, 0, PFloat.val 0, PFloat.val 0, PFloat.val 0,
    PFloat.val 0, confidence_level⟩

/-- The cleaning step of `calculate_confidence_interval`:
`clean_data = data.dropna()` followed by `clean_data = clean_data[clean_data > 0]`.
After both filters every entry is a finite rational, extracted by the final
`filterMap`. -/
def cleanData (data : List PFloat) : List ℚ :=
  (((data.filter fun x => !x.isNan).filter fun x =>
      PFloat.ltB (PFloat.val 0) x).filterMap PFloat.toRat)

/-- Sample mean of the cleaned data (`clean_data.mean()`). -/
def ciMean (clean : List ℚ) : ℚ :=
  clean.sum / (clean.length : ℚ)

/-- Sample standard deviation `clean_data.std(ddof=1)`: the square root of the
sum of squared deviations over `n - 1`.  For a single observation the `n - 1`
denominator is zero and pandas returns NaN.  `sqrtp` models the float square
root used by pandas / numpy. -/
def ciStd (sqrtp : ℚ → ℚ) (clean : List ℚ) : PFloat :=
  if clean.length = 1 then PFloat.nan
  else
    PFloat.val (sqrtp (((clean.map fun x => (x - ciMean clean) ^ 2).sum) /
      ((clean.length : ℚ) - 1)))

/-- Standard error of the mean: `sem = std / np.sqrt(n)`. -/
def ciSem (sqrtp : ℚ → ℚ) (clean : List ℚ) : PFloat :=
  PFloat.div (ciStd sqrtp clean) (PFloat.val (sqrtp (clean.length : ℚ)))

/-- Margin of error: the t critical value for small samples (`n < 30`), the
normal critical value otherwise.  `tppf p df` models `scipy.stats.t.ppf(p, df)`
(which is NaN at `df = 0`) and `zppf p` models `scipy.stats.norm.ppf(p)`;
both are consulted at the upper-tail probability `1 - alpha / 2`. -/
def ciMoe (sqrtp : ℚ → ℚ) (tppf : ℚ → ℕ → PFloat) (zppf : ℚ → ℚ)
    (clean : List ℚ) (confidence_level : ℚ) : PFloat :=
  if clean.length < 30 then
    PFloat.mul (tppf (1 - (1 - confidence_level) / 2) (clean.length - 1))
      (ciSem sqrtp clean)
  else
    PFloat.mul (PFloat.val (zppf (1 - (1 - confidence_level) / 2)))
      (ciSem sqrtp clean)

/-- Body of `calculate_confidence_interval` on the cleaned sample: the
zero-filled dictionary when the cleaned sample is empty, otherwise the mean
with a symmetric interval `mean ± margin_of_error`. -/
def ciCore (sqrtp : ℚ → ℚ) (tppf : ℚ → ℕ → PFloat) (zppf : ℚ → ℚ)
    (clean : List ℚ) (confidence_level : ℚ) : CIResult :=
  if clean.length = 0 then zeroCI confidence_level
  else
    ⟨PFloat.val (ciMean clean), ciStd sqrtp clean, clean.length,
      ciSem sqrtp clean,
      PFloat.sub (PFloat.val (ciMean clean)) (ciMoe sqrtp tppf zppf clean confidence_level),
      PFloat.add (PFloat.val (ciMean clean)) (ciMoe sqrtp tppf zppf clean confidence_level),
      ciMoe sqrtp tppf zppf clean confidence_level, confidence_level⟩

/-- `calculate_confidence_interval` from src/src/statistics/error_estimation.py:
clean the data, then compute mean, sample std, sem and a two-sided interval. -/
def calculate_confidence_interval (sqrtp : ℚ → ℚ) (tppf : ℚ → ℕ → PFloat)
    (zppf : ℚ → ℚ) (data : List PFloat) (confidence_level : ℚ) : CIResult :=
  ciCore sqrtp tppf zppf (cleanData data) confidence_level

/-- Result dictionary of `calculate_proportion_confidence_interval`.
No field of this function can be NaN for a sane quantile model, so the
fields are plain rationals. -/
structure PropCI where
  proportion : ℚ
  percentage : ℚ
  n : ℕ
  ci_lower : ℚ
  ci_upper : ℚ
  margin_of_error : ℚ
  confidence_level : ℚ
deriving DecidableEq, Repr

/-- `calculate_proportion_confidence_interval` from error_estimation.py:
normal approximation to the binomial, bounds clamped to [0, 1] before being
converted to percentages. -/
def calculate_proportion_confidence_interval (sqrtp : ℚ → ℚ) (zppf : ℚ → ℚ)
    (count total : ℕ) (confidence_level : ℚ) : PropCI :=
  if total = 0 then ⟨0, 0, 0, 0, 0, 0, confidence_level⟩
  else
    let proportion : ℚ := (count : ℚ) / (total : ℚ)
    let percentage : ℚ := proportion * 100
    let se_proportion : ℚ := sqrtp (proportion * (1 - proportion) / (total : ℚ))
    let z_critical : ℚ := zppf (1 - (1 - confidence_level) / 2)
    let margin_of_error : ℚ := z_critical * se_proportion
    let ci_lower_prop : ℚ := max 0 (proportion - margin_of_error)
    let ci_upper_prop : ℚ := min 1 (proportion + margin_of_error)
    ⟨proportion, percentage, total, ci_lower_prop * 100, ci_upper_prop * 100,
      margin_of_error * 100, confidence_level⟩

/-- A JSON value found under the `id` key of a vacancy dictionary: absent
(Python `None` via `dict.get`), an integer, or a string. -/
inductive PyId where
  | pynone : PyId
  | pyint : ℤ → PyId
  | pystr : String → PyId
deriving DecidableEq, Repr

/-- Python truthiness of an id value: `None`, `0` and `""` are falsy. -/
def PyId.truthy : PyId → Bool
  | .pynone => false
  | .pyint n => decide (n ≠ 0)
  | .pystr s => decide (s ≠ "")

/-- A vacancy record, reduced to the fields the analysed code reads:
the external identifier and the title / employer / region text fields. -/
structure Vac where
  id : PyId
  name : String
  employer : String
  region : String
deriving DecidableEq, Repr

/-- Loop of `VacancyMerger.remove_duplicates`: walk the batch keeping a set of
seen ids; a record is kept iff its id is truthy and not seen before.  The
Python `set` is modelled by a list with membership lookup. -/
def removeDupGo : List PyId → List Vac → List Vac
  | _, [] => []
  | seen, v :: rest =>
    if v.id.truthy = true ∧ v.id ∉ seen then v :: removeDupGo (v.id :: seen) rest
    else removeDupGo seen rest

/-- `VacancyMerger.remove_duplicates` (src/vacancy_merger.py lines 88-114). -/
def remove_duplicates (vacancies : List Vac) : List Vac :=
  removeDupGo [] vacancies

/-- Specification-side description of first-occurrence deduplication: keep the
head record and recursively deduplicate the tail with all records carrying the
head's identifier removed.  The output lists, in input order, the first record
of each identifier. -/
def keepFirst : List Vac → List Vac
  | [] => []
  | v :: rest => v :: keepFirst (rest.filter fun u => decide (u.id ≠ v.id))
termination_by l => l.length
decreasing_by
  simp only [List.length_cons]
  exact Nat.lt_succ_of_le (List.length_filter_le _ _)

/-- Whether a string is nonempty and all digits (Python `str.isdigit` guarded
by truthiness, as in `_generate_vacancy_id`). -/
def isDigitStr (s : String) : Bool :=
  !(s.data.isEmpty) && s.data.all fun c => c.isDigit

/-- Python `int` on a digit string. -/
def strToNat (s : String) : ℕ :=
  s.data.foldl (fun acc c => acc * 10 + (c.toNat - 48)) 0

/-- `DatabaseManager._generate_vacancy_id` (db_manager.py lines 545-554):
a numeric external id is parsed; otherwise the first 8 hex digits of the md5
of the id string itself become the key.  `md5_8` models hashlib's md5 digest
as a function of the hashed string; the `% 16 ^ 8` truncation models taking
8 hex digits. -/
def generate_vacancy_id (md5_8 : String → ℕ) (hh_id : String) : ℕ :=
  if isDigitStr hh_id = true then strToNat hh_id
  else md5_8 hh_id % 16 ^ 8

/-- Newton iteration for the integer square root, with explicit fuel so that
the kernel can evaluate it (the fuel bound is never reached: the guess
strictly decreases until the stopping test fires). -/
def isqrtAux : ℕ → ℕ → ℕ → ℕ
  | 0, _, g => g
  | fuel + 1, n, g =>
    let next := (g + n / g) / 2
    if next < g then isqrtAux fuel n next else g

/-- Integer square root (floor), kernel-computable. -/
def isqrt (n : ℕ) : ℕ :=
  if n ≤ 1 then n else isqrtAux n n (n / 2)

/-- A pandas cell that is expected to hold a title: either an actual string or
a non-string value (for example NaN). -/
inductive PyStrVal where
  | pystr : String → PyStrVal
  | nonstr : PyStrVal
deriving DecidableEq, Repr

/-- Python substring containment `needle in hay` on explicit character lists. -/
def hasSub (needle : List Char) : List Char → Bool
  | [] => needle.isEmpty
  | c :: t => needle.isPrefixOf (c :: t) || hasSub needle t

/-- Python `needle in hay` on strings. -/
def strIn (needle hay : String) : Bool :=
  hasSub needle.data hay.data

/-- Python `str.lower`, modelled characterwise (the keyword tables are already
lowercase, and the claims evaluate titles whose lowercasing is trivial). -/
def pyLower (s : String) : String :=
  String.mk (s.data.map Char.toLower)

/-- The keyword-table scan shared by all the classifiers: return the first
category one of whose keywords occurs in the title, else the default. -/
def matchFirst (table : List (String × List String)) (title dflt : String) : String :=
  match table with
  | [] => dflt
  | (cat, kws) :: rest =>
    if kws.any (fun k => strIn k title) then cat else matchFirst rest title dflt

/-- Position-level keyword table of `data_cleaner._create_new_features`. -/
def levelKeywords : List (String × List String) :=
  [("worker", ["рабочий", "оператор", "грузчик", "слесарь", "токарь"]),
   ("specialist", ["специалист", "менеджер", "технолог", "мастер"]),
   ("engineer", ["инженер", "конструктор", "проектировщик"]),
   ("leadership", ["начальник", "руководитель", "директор", "заведующий"]),
   ("executive", ["генеральный", "директор по развитию", "технический директор"])]

/-- `classify_position_level` from data_cleaner.py lines 350-369: non-strings
map to "unknown", otherwise the lowercased title is scanned against the
keyword table with default "other". -/
def classify_position_level : PyStrVal → String
  | .nonstr => "unknown"
  | .pystr s => matchFirst levelKeywords (pyLower s) "other"

/-- Industry-segment keyword table of `data_cleaner._create_new_features`. -/
def segmentKeywords : List (String × List String) :=
  [("machinery", ["машиностроение", "станкостроение", "автомобилестроение"]),
   ("metallurgy", ["металлург", "сталевар", "прокат", "литейщ"]),
   ("chemical", ["химик", "лаборант", "технолог хими", "нефтехим"]),
   ("energy", ["энергетик", "электрик", "электромонтер", "энерго"]),
   ("oil_gas", ["нефть", "газ", "буровик", "нефтяник"]),
   ("construction", ["строитель", "монтажник", "отделочник"])]

/-- `classify_industry_segment` from data_cleaner.py lines 374-394: non-strings
map to "other", otherwise the keyword scan defaults to "other_industry". -/
def classify_industry_segment : PyStrVal → String
  | .nonstr => "other"
  | .pystr s => matchFirst segmentKeywords (pyLower s) "other_industry"

/-- Position-level keyword table of the `DatabaseManager._classify_position_level`
fallback (db_manager.py lines 665-684). -/
def dbLevelKeywords : List (String × List String) :=
  [("рабочий", ["рабочий", "оператор", "грузчик", "слесарь", "токарь",
     "фрезеровщик", "сварщик", "монтажник", "электромонтер", "наладчик"]),
   ("специалист", ["специалист", "технолог", "мастер", "бригадир", "механик",
     "электрик"]),
   ("инженер", ["инженер", "конструктор", "проектировщик", "техник"]),
   ("руководитель", ["начальник", "руководитель", "директор", "зам",
     "заместитель", "управляющ", "прораб", "мастер участка"]),
   ("высшее_руководство", ["генеральный", "директор по развитию",
     "технический директор", "главный инженер", "главный технолог"])]

/-- `DatabaseManager._classify_position_level` fallback branch: scan the
lowercased vacancy name, defaulting to "другое". -/
def dbClassifyPositionLevel (name : String) : String :=
  matchFirst dbLevelKeywords (pyLower name) "другое"

/-- Concrete rational stand-in for `np.sqrt`, used to instantiate the
parametric theorems on concrete inputs: a scaled integer square root.
It is exact on the relevant fixed points (0 maps to 0) and positive on
positive arguments. -/
def ratSqrt (q : ℚ) : ℚ :=
  if q ≤ 0 then 0
  else (isqrt (q.num.toNat * q.den * 1000000) : ℚ) / ((q.den : ℚ) * 1000)

/-- Concrete stand-in for `scipy.stats.t.ppf` at upper-tail probabilities:
NaN at zero degrees of freedom (as scipy returns), and a tabulated positive
critical value otherwise. -/
def tCrit (_p : ℚ) (df : ℕ) : PFloat :=
  if df = 0 then PFloat.nan
  else PFloat.val (if df = 1 then 12.7062 else if df = 2 then 4.302653
    else if df = 3 then 3.182446 else 2.05)

/-- Concrete stand-in for `scipy.stats.norm.ppf` at the upper 97.5% point. -/
def zCrit (_p : ℚ) : ℚ := 1.959964

/-- A second concrete quantile stand-in, used to exhibit that a branch of the
computation does not consult the corresponding quantile function. -/
def tCritAlt (_p : ℚ) (_df : ℕ) : PFloat := PFloat.val 7

/-- A second concrete normal-quantile stand-in. -/
def zCritAlt (_p : ℚ) : ℚ := 3

theorem isqrtAux_pos (fuel n : ℕ) : ∀ g : ℕ, 1 ≤ g → 2 ≤ n → 1 ≤ isqrtAux fuel n g := by
  induction fuel with
  | zero => intro g hg _; simpa [isqrtAux] using hg
  | succ fuel ih =>
    intro g hg hn
    rw [isqrtAux]
    split
    · apply ih _ _ hn
      have h2 : 2 ≤ g + n / g := by
        rcases Nat.lt_or_ge g 2 with h | h
        · have hg1 : g = 1 := by omega
          subst hg1
          rw [Nat.div_one]
          omega
        · exact Nat.le_add_right_of_le h
      exact (Nat.le_div_iff_mul_le (by norm_num)).mpr (by simpa using h2)
    · exact hg

theorem isqrt_pos {n : ℕ} (hn : 1 ≤ n) : 1 ≤ isqrt n := by
  rw [isqrt]
  split
  · omega
  · next h =>
    exact isqrtAux_pos _ _ _ (by omega) (by omega)

theorem ratSqrt_nonneg (q : ℚ) : 0 ≤ ratSqrt q := by
  rw [ratSqrt]
  split
  · exact le_refl 0
  · exact div_nonneg (Nat.cast_nonneg _) (by positivity)

theorem ratSqrt_pos {q : ℚ} (hq : 0 < q) : 0 < ratSqrt q := by
  rw [ratSqrt, if_neg (not_le.mpr hq)]
  apply div_pos
  · have h1 : 1 ≤ q.num.toNat := by
      have := Rat.num_pos.mpr hq
      omega
    have hd : 1 ≤ q.den := q.den_pos
    have harg : 1 ≤ q.num.toNat * q.den * 1000000 :=
      Nat.one_le_iff_ne_zero.mpr (Nat.pos_iff_ne_zero.mp
        (Nat.mul_pos (Nat.mul_pos h1 hd) (by norm_num)))
    exact_mod_cast Nat.lt_of_lt_of_le Nat.zero_lt_one (isqrt_pos harg)
  · positivity

theorem tCrit_val (p : ℚ) (df : ℕ) (hdf : 1 ≤ df) :
    ∃ c, 0 ≤ c ∧ tCrit p df = PFloat.val c := by
  rw [tCrit, if_neg (by omega : ¬ df = 0)]
  refine ⟨_, ?_, rfl⟩
  split_ifs <;> norm_num

theorem zCrit_nonneg (p : ℚ) : 0 ≤ zCrit p := by
  rw [zCrit]
  norm_num

/-- C5: `calculate_proportion_confidence_interval` with `count = 0` and
`total = 0` takes the guarded `total == 0` branch, so it performs no division
and returns the dictionary whose statistical fields (proportion, percentage,
n, ci_lower, ci_upper, margin_of_error) are all zero; the `confidence_level`
field echoes the input parameter.  The embedded function is total, matching
the absence of any raising path in the source. -/
theorem prop_ci_zero_total (sqrtp zppf : ℚ → ℚ) (cl : ℚ) :
    calculate_proportion_confidence_interval sqrtp zppf 0 0 cl =
      ⟨0, 0, 0, 0, 0, 0, cl⟩ :=
  rfl

/-- C9: for `0 ≤ count ≤ total` with `total > 0`, the proportion interval is
clamped to the valid percentage range and brackets the point estimate:
`0 ≤ ci_lower ≤ percentage ≤ ci_upper ≤ 100`.  The hypotheses on the library
parameters say only that the modelled square root is nonnegative and the
modelled normal quantile at the used upper-tail probability is nonnegative. -/
theorem prop_ci_brackets (sqrtp zppf : ℚ → ℚ) (count total : ℕ) (cl : ℚ)
    (hsq : ∀ q, 0 ≤ sqrtp q)
    (hz : 0 ≤ zppf (1 - (1 - cl) / 2))
    (hct : count ≤ total) (hpos : 0 < total) :
    0 ≤ (calculate_proportion_confidence_interval sqrtp zppf count total cl).ci_lower ∧
    (calculate_proportion_confidence_interval sqrtp zppf count total cl).ci_lower ≤
      (calculate_proportion_confidence_interval sqrtp zppf count total cl).percentage ∧
    (calculate_proportion_confidence_interval sqrtp zppf count total cl).percentage ≤
      (calculate_proportion_confidence_interval sqrtp zppf count total cl).ci_upper ∧
    (calculate_proportion_confidence_interval sqrtp zppf count total cl).ci_upper ≤ 100 := by
  have htot : ¬ total = 0 := hpos.ne'
  unfold calculate_proportion_confidence_interval
  rw [if_neg htot]
  set p : ℚ := (count : ℚ) / (total : ℚ) with hp
  set m : ℚ := zppf (1 - (1 - cl) / 2) * sqrtp (p * (1 - p) / (total : ℚ)) with hm
  have hp0 : 0 ≤ p := div_nonneg (Nat.cast_nonneg _) (Nat.cast_nonneg _)
  have hp1 : p ≤ 1 := by
    rw [hp, div_le_one (by exact_mod_cast hpos)]
    exact_mod_cast hct
  have hm0 : 0 ≤ m := mul_nonneg hz (hsq _)
  refine ⟨?_, ?_, ?_, ?_⟩
  · exact mul_nonneg (le_max_left 0 _) (by norm_num)
  · exact mul_le_mul_of_nonneg_right (max_le hp0 (sub_le_self _ hm0)) (by norm_num)
  · exact mul_le_mul_of_nonneg_right (le_min hp1 (le_add_of_nonneg_right hm0)) (by norm_num)
  · calc min 1 (p + m) * 100 ≤ 1 * 100 :=
        mul_le_mul_of_nonneg_right (min_le_left _ _) (by norm_num)
      _ = 100 := by norm_num

/-- Witness for C9: the theorem applied to `count = 3`, `total = 10` with the
concrete library stand-ins. -/
theorem prop_ci_brackets_witness :
    0 ≤ (calculate_proportion_confidence_interval ratSqrt zCrit 3 10 (95/100)).ci_lower ∧
    (calculate_proportion_confidence_interval ratSqrt zCrit 3 10 (95/100)).ci_lower ≤
      (calculate_proportion_confidence_interval ratSqrt zCrit 3 10 (95/100)).percentage ∧
    (calculate_proportion_confidence_interval ratSqrt zCrit 3 10 (95/100)).percentage ≤
      (calculate_proportion_confidence_interval ratSqrt zCrit 3 10 (95/100)).ci_upper ∧
    (calculate_proportion_confidence_interval ratSqrt zCrit 3 10 (95/100)).ci_upper ≤ 100 :=
  prop_ci_brackets ratSqrt zCrit 3 10 (95/100) ratSqrt_nonneg (zCrit_nonneg _)
    (by decide) (by decide)

theorem ciMoe_small (sqrtp : ℚ → ℚ) (tppf : ℚ → ℕ → PFloat) (zppf : ℚ → ℚ)
    (clean : List ℚ) (cl : ℚ) (h : clean.length < 30) :
    ciMoe sqrtp tppf zppf clean cl =
      PFloat.mul (tppf (1 - (1 - cl) / 2) (clean.length - 1)) (ciSem sqrtp clean) := by
  rw [ciMoe, if_pos h]

theorem ciMoe_large (sqrtp : ℚ → ℚ) (tppf : ℚ → ℕ → PFloat) (zppf : ℚ → ℚ)
    (clean : List ℚ) (cl : ℚ) (h : ¬ clean.length < 30) :
    ciMoe sqrtp tppf zppf clean cl =
      PFloat.mul (PFloat.val (zppf (1 - (1 - cl) / 2))) (ciSem sqrtp clean) := by
  rw [ciMoe, if_neg h]

theorem ciCore_moe (sqrtp : ℚ → ℚ) (tppf : ℚ → ℕ → PFloat) (zppf : ℚ → ℚ)
    (clean : List ℚ) (cl : ℚ) (h0 : ¬ clean.length = 0) :
    (ciCore sqrtp tppf zppf clean cl).margin_of_error =
      ciMoe sqrtp tppf zppf clean cl := by
  rw [ciCore, if_neg h0]

theorem ciCore_sem (sqrtp : ℚ → ℚ) (tppf : ℚ → ℕ → PFloat) (zppf : ℚ → ℚ)
    (clean : List ℚ) (cl : ℚ) (h0 : ¬ clean.length = 0) :
    (ciCore sqrtp tppf zppf clean cl).sem = ciSem sqrtp clean := by
  rw [ciCore, if_neg h0]

/-- C8: the margin of error of `calculate_confidence_interval` is the Student
t critical value times the sem exactly when the cleaned sample size is
positive and below 30, in which case the result does not depend on the normal
quantile function at all; for sizes of at least 30 it is the normal critical
value times the sem and the result does not depend on the t quantile function;
`calculate_proportion_confidence_interval` always uses the normal
approximation to the binomial (its margin is the normal critical value times
the binomial standard error, for every nonzero total). -/
theorem ci_distribution_choice (sqrtp : ℚ → ℚ) (t1 t2 : ℚ → ℕ → PFloat)
    (z1 z2 : ℚ → ℚ) (data : List PFloat) (cl : ℚ) (count total : ℕ) :
    (¬ (cleanData data).length = 0 → (cleanData data).length < 30 →
      calculate_confidence_interval sqrtp t1 z1 data cl
        = calculate_confidence_interval sqrtp t1 z2 data cl ∧
      (calculate_confidence_interval sqrtp t1 z1 data cl).margin_of_error
        = PFloat.mul (t1 (1 - (1 - cl) / 2) ((cleanData data).length - 1))
            ((calculate_confidence_interval sqrtp t1 z1 data cl).sem)) ∧
    (30 ≤ (cleanData data).length →
      calculate_confidence_interval sqrtp t1 z1 data cl
        = calculate_confidence_interval sqrtp t2 z1 data cl ∧
      (calculate_confidence_interval sqrtp t1 z1 data cl).margin_of_error
        = PFloat.mul (PFloat.val (z1 (1 - (1 - cl) / 2)))
            ((calculate_confidence_interval sqrtp t1 z1 data cl).sem)) ∧
    (¬ total = 0 →
      (calculate_proportion_confidence_interval sqrtp z1 count total cl).margin_of_error
        = z1 (1 - (1 - cl) / 2) *
            sqrtp (((count : ℚ) / (total : ℚ)) * (1 - (count : ℚ) / (total : ℚ)) / (total : ℚ)) * 100) := by
  refine ⟨?_, ?_, ?_⟩
  · intro h0 h30
    constructor
    · unfold calculate_confidence_interval ciCore
      rw [ciMoe_small _ _ z1 _ _ h30, ciMoe_small _ _ z2 _ _ h30]
    · unfold calculate_confidence_interval
      rw [ciCore_moe _ _ _ _ _ h0, ciCore_sem _ _ _ _ _ h0, ciMoe_small _ _ _ _ _ h30]
  · intro h30
    have h30' : ¬ (cleanData data).length < 30 := not_lt.mpr h30
    have h0 : ¬ (cleanData data).length = 0 := by omega
    constructor
    · unfold calculate_confidence_interval ciCore
      rw [ciMoe_large _ t1 _ _ _ h30', ciMoe_large _ t2 _ _ _ h30']
    · unfold calculate_confidence_interval
      rw [ciCore_moe _ _ _ _ _ h0, ciCore_sem _ _ _ _ _ h0, ciMoe_large _ _ _ _ _ h30']
  · intro htot
    unfold calculate_proportion_confidence_interval
    rw [if_neg htot]

unseal Rat.mul Rat.inv Rat.add Rat.sub Rat.ofScientific in
/-- Witness for C8: a three-element sample (t branch, invariant under the
normal quantile), a thirty-element sample (normal branch, invariant under the
t quantile), and a proportion of 1 out of 2. -/
theorem ci_distribution_choice_witness :
    (calculate_confidence_interval ratSqrt tCrit zCrit
        [PFloat.val 1, PFloat.val 2, PFloat.val 3] (95/100)
      = calculate_confidence_interval ratSqrt tCrit zCritAlt
        [PFloat.val 1, PFloat.val 2, PFloat.val 3] (95/100)) ∧
    (calculate_confidence_interval ratSqrt tCrit zCrit
        (List.replicate 30 (PFloat.val 1)) (95/100)
      = calculate_confidence_interval ratSqrt tCritAlt zCrit
        (List.replicate 30 (PFloat.val 1)) (95/100)) ∧
    ((calculate_proportion_confidence_interval ratSqrt zCrit 1 2 (95/100)).margin_of_error
      = zCrit (1 - (1 - 95/100) / 2) *
          ratSqrt (((1 : ℚ) / (2 : ℚ)) * (1 - (1 : ℚ) / (2 : ℚ)) / (2 : ℚ)) * 100) :=
  ⟨((ci_distribution_choice ratSqrt tCrit tCritAlt zCrit zCritAlt
      [PFloat.val 1, PFloat.val 2, PFloat.val 3] (95/100) 1 2).1
        (by decide) (by decide)).1,
   ((ci_distribution_choice ratSqrt tCrit tCritAlt zCrit zCritAlt
      (List.replicate 30 (PFloat.val 1)) (95/100) 1 2).2.1
        (by decide)).1,
   by
    have h := (ci_distribution_choice ratSqrt tCrit tCritAlt zCrit zCritAlt
      [] (95/100) 1 2).2.2 (by decide)
    simpa using h⟩

/-- C1 (amended): for every sample whose cleaned size is not exactly 1 the
interval brackets the mean, `ci_lower <= mean <= ci_upper` — including the
degenerate empty case, where all fields are zero.  (At cleaned size 1 the
claim fails: pandas `std(ddof=1)` is NaN there, see `ci_bracket_cex`.)
Hypotheses on the modelled library functions: the square root is nonnegative
and positive on positive arguments, the t quantile at the used upper-tail
probability is a nonnegative finite value for positive degrees of freedom,
and the normal quantile at that probability is nonnegative. -/
theorem ci_bracket (sqrtp : ℚ → ℚ) (tppf : ℚ → ℕ → PFloat) (zppf : ℚ → ℚ)
    (data : List PFloat) (cl : ℚ)
    (hsq : ∀ q, 0 ≤ sqrtp q)
    (hsqpos : ∀ q, 0 < q → 0 < sqrtp q)
    (ht : ∀ df, 1 ≤ df → ∃ c, 0 ≤ c ∧ tppf (1 - (1 - cl) / 2) df = PFloat.val c)
    (hz : 0 ≤ zppf (1 - (1 - cl) / 2))
    (hn1 : ¬ (cleanData data).length = 1) :
    PFloat.leB (calculate_confidence_interval sqrtp tppf zppf data cl).ci_lower
        (calculate_confidence_interval sqrtp tppf zppf data cl).mean = true ∧
      PFloat.leB (calculate_confidence_interval sqrtp tppf zppf data cl).mean
        (calculate_confidence_interval sqrtp tppf zppf data cl).ci_upper = true := by
  unfold calculate_confidence_interval
  by_cases h0 : (cleanData data).length = 0
  · rw [ciCore, if_pos h0]
    constructor <;> simp [zeroCI, PFloat.leB]
  · have hn2 : 2 ≤ (cleanData data).length := by omega
    have hnpos : (0 : ℚ) < ((cleanData data).length : ℚ) := by
      exact_mod_cast Nat.pos_of_ne_zero h0
    have hsqn : 0 < sqrtp ((cleanData data).length : ℚ) := hsqpos _ hnpos
    have hstd : ciStd sqrtp (cleanData data) =
        PFloat.val (sqrtp ((((cleanData data).map fun x => (x - ciMean (cleanData data)) ^ 2).sum) /
          (((cleanData data).length : ℚ) - 1))) := by
      rw [ciStd, if_neg hn1]
    have hsem : ciSem sqrtp (cleanData data) =
        PFloat.val ((sqrtp ((((cleanData data).map fun x => (x - ciMean (cleanData data)) ^ 2).sum) /
          (((cleanData data).length : ℚ) - 1))) / sqrtp ((cleanData data).length : ℚ)) := by
      rw [ciSem, hstd]
      simp [PFloat.div, hsqn.ne']
    have hsm0 : 0 ≤ (sqrtp ((((cleanData data).map fun x => (x - ciMean (cleanData data)) ^ 2).sum) /
          (((cleanData data).length : ℚ) - 1))) / sqrtp ((cleanData data).length : ℚ) :=
      div_nonneg (hsq _) hsqn.le
    have hmoe : ∃ m, 0 ≤ m ∧
        ciMoe sqrtp tppf zppf (cleanData data) cl = PFloat.val m := by
      by_cases h30 : (cleanData data).length < 30
      · obtain ⟨c, hc0, hc⟩ := ht ((cleanData data).length - 1) (by omega)
        refine ⟨_, mul_nonneg hc0 hsm0, ?_⟩
        rw [ciMoe_small _ _ _ _ _ h30, hc, hsem]
        rfl
      · refine ⟨_, mul_nonneg hz hsm0, ?_⟩
        rw [ciMoe_large _ _ _ _ _ h30, hsem]
        rfl
    obtain ⟨m, hm0, hmoe⟩ := hmoe
    rw [ciCore, if_neg h0]
    constructor
    · show PFloat.leB (PFloat.sub (PFloat.val (ciMean (cleanData data)))
        (ciMoe sqrtp tppf zppf (cleanData data) cl)) (PFloat.val (ciMean (cleanData data))) = true
      rw [hmoe]
      simpa [PFloat.sub, PFloat.leB] using sub_le_self (ciMean (cleanData data)) hm0
    · show PFloat.leB (PFloat.val (ciMean (cleanData data)))
        (PFloat.add (PFloat.val (ciMean (cleanData data)))
          (ciMoe sqrtp tppf zppf (cleanData data) cl)) = true
      rw [hmoe]
      simpa [PFloat.add, PFloat.leB] using le_add_of_nonneg_right (a := ciMean (cleanData data)) hm0

unseal Rat.mul Rat.inv Rat.add Rat.sub Rat.ofScientific in
/-- Counterexample to C1 as stated: for the one-element sample `[5]` the
cleaned size is 1, pandas `std(ddof=1)` is NaN, the NaN propagates into
`ci_lower`, and the comparison `ci_lower <= mean` is false (NaN comparisons
are always false in Python). -/
theorem ci_bracket_cex :
    (calculate_confidence_interval ratSqrt tCrit zCrit [PFloat.val 5] (95/100)).n = 1 ∧
    (calculate_confidence_interval ratSqrt tCrit zCrit [PFloat.val 5] (95/100)).std = PFloat.nan ∧
    (calculate_confidence_interval ratSqrt tCrit zCrit [PFloat.val 5] (95/100)).ci_lower = PFloat.nan ∧
    (PFloat.leB (calculate_confidence_interval ratSqrt tCrit zCrit [PFloat.val 5] (95/100)).ci_lower
        (calculate_confidence_interval ratSqrt tCrit zCrit [PFloat.val 5] (95/100)).mean = false) := by
  decide

/-- Witness for C1 (amended): the two-element sample `[2, 4]` with the
concrete library stand-ins. -/
theorem ci_bracket_witness :
    PFloat.leB (calculate_confidence_interval ratSqrt tCrit zCrit
        [PFloat.val 2, PFloat.val 4] (95/100)).ci_lower
      (calculate_confidence_interval ratSqrt tCrit zCrit
        [PFloat.val 2, PFloat.val 4] (95/100)).mean = true ∧
    PFloat.leB (calculate_confidence_interval ratSqrt tCrit zCrit
        [PFloat.val 2, PFloat.val 4] (95/100)).mean
      (calculate_confidence_interval ratSqrt tCrit zCrit
        [PFloat.val 2, PFloat.val 4] (95/100)).ci_upper = true :=
  ci_bracket ratSqrt tCrit zCrit [PFloat.val 2, PFloat.val 4] (95/100)
    ratSqrt_nonneg (fun _ hq => ratSqrt_pos hq) (fun df hdf => tCrit_val _ df hdf)
    (zCrit_nonneg _) (by decide)

theorem cleanData_cons_nan (t : List PFloat) :
    cleanData (PFloat.nan :: t) = cleanData t := by
  simp [cleanData, List.filter, PFloat.isNan]

theorem cleanData_cons_pos {q : ℚ} (t : List PFloat) (hq : 0 < q) :
    cleanData (PFloat.val q :: t) = q :: cleanData t := by
  simp [cleanData, List.filter, PFloat.isNan, PFloat.ltB, hq, PFloat.toRat]

theorem cleanData_cons_nonpos {q : ℚ} (t : List PFloat) (hq : ¬ 0 < q) :
    cleanData (PFloat.val q :: t) = cleanData t := by
  simp [cleanData, List.filter, PFloat.isNan, PFloat.ltB, hq]

/-- Cleaning commutes with pre-filtering to the strictly positive entries:
NaN and nonpositive entries are exactly what the cleaning discards. -/
theorem cleanData_filter_pos (data : List PFloat) :
    cleanData (data.filter fun x => PFloat.ltB (PFloat.val 0) x) = cleanData data := by
  induction data with
  | nil => rfl
  | cons x t ih =>
    cases x with
    | nan =>
      rw [List.filter_cons_of_neg (by simp [PFloat.ltB]), cleanData_cons_nan, ih]
    | val q =>
      by_cases hq : (0 : ℚ) < q
      · rw [List.filter_cons_of_pos (by simp [PFloat.ltB, hq]), cleanData_cons_pos _ hq,
          cleanData_cons_pos _ hq, ih]
      · rw [List.filter_cons_of_neg (by simp [PFloat.ltB, hq]), cleanData_cons_nonpos _ hq, ih]

/-- C10: `calculate_confidence_interval` silently discards NaN entries and all
entries that are not strictly positive: its result on any series equals its
result on the subseries of strictly positive entries, and when that subseries
is empty (for example a nonempty sample of only zeros or negatives) the
zero-filled degenerate dictionary is returned. -/
theorem ci_ignores_nonpositive (sqrtp : ℚ → ℚ) (tppf : ℚ → ℕ → PFloat) (zppf : ℚ → ℚ)
    (data : List PFloat) (cl : ℚ) :
    calculate_confidence_interval sqrtp tppf zppf data cl =
      calculate_confidence_interval sqrtp tppf zppf
        (data.filter fun x => PFloat.ltB (PFloat.val 0) x) cl ∧
    ((data.filter fun x => PFloat.ltB (PFloat.val 0) x) = [] →
      calculate_confidence_interval sqrtp tppf zppf data cl = zeroCI cl) := by
  constructor
  · unfold calculate_confidence_interval
    rw [cleanData_filter_pos]
  · intro hf
    unfold calculate_confidence_interval
    rw [← cleanData_filter_pos data, hf]
    rfl

unseal Rat.mul Rat.inv Rat.add Rat.sub Rat.ofScientific in
/-- Witness for C10: the sample `[-5, 0, NaN]` has no strictly positive entry
and produces the zero-filled dictionary. -/
theorem ci_ignores_nonpositive_witness :
    calculate_confidence_interval ratSqrt tCrit zCrit
      [PFloat.val (-5), PFloat.val 0, PFloat.nan] (95/100) = zeroCI (95/100) :=
  (ci_ignores_nonpositive ratSqrt tCrit zCrit
    [PFloat.val (-5), PFloat.val 0, PFloat.nan] (95/100)).2 (by decide)

unseal Rat.mul Rat.inv Rat.add Rat.sub Rat.ofScientific in
/-- Counterexample to C4 as stated: for the constant sample `[100, 100, 100]`
the sample standard deviation is 0, so `margin_of_error` is exactly 0 — not
strictly greater than 0 as the claim asserts. -/
theorem ci_const_sample_cex :
    (calculate_confidence_interval ratSqrt tCrit zCrit
        [PFloat.val 100, PFloat.val 100, PFloat.val 100] (95/100)).margin_of_error
      = PFloat.val 0 ∧
    PFloat.ltB (PFloat.val 0)
      (calculate_confidence_interval ratSqrt tCrit zCrit
        [PFloat.val 100, PFloat.val 100, PFloat.val 100] (95/100)).margin_of_error
      = false := by
  decide

/-- C4 (amended): for the sample `[100, 100, 100]` (cleaned size 3 < 30) the
t-based interval is symmetric around the mean 100, with `margin_of_error`
equal to 0 (not strictly positive): the interval degenerates to the point
100.  This holds for every model of the library functions that sends 0 to 0
and 3 to a nonzero square root, with any finite t critical value at 2 degrees
of freedom. -/
theorem ci_const_sample (sqrtp : ℚ → ℚ) (tppf : ℚ → ℕ → PFloat) (zppf : ℚ → ℚ) (c : ℚ)
    (hs0 : sqrtp 0 = 0) (hs3 : ¬ sqrtp 3 = 0)
    (htp : tppf (1 - (1 - (95/100 : ℚ)) / 2) 2 = PFloat.val c) :
    (calculate_confidence_interval sqrtp tppf zppf
        [PFloat.val 100, PFloat.val 100, PFloat.val 100] (95/100)).mean = PFloat.val 100 ∧
    (calculate_confidence_interval sqrtp tppf zppf
        [PFloat.val 100, PFloat.val 100, PFloat.val 100] (95/100)).margin_of_error = PFloat.val 0 ∧
    (calculate_confidence_interval sqrtp tppf zppf
        [PFloat.val 100, PFloat.val 100, PFloat.val 100] (95/100)).ci_lower = PFloat.val 100 ∧
    (calculate_confidence_interval sqrtp tppf zppf
        [PFloat.val 100, PFloat.val 100, PFloat.val 100] (95/100)).ci_upper = PFloat.val 100 := by
  have hclean : cleanData [PFloat.val 100, PFloat.val 100, PFloat.val 100] =
      ([100, 100, 100] : List ℚ) := by
    rw [cleanData_cons_pos _ (by norm_num), cleanData_cons_pos _ (by norm_num),
      cleanData_cons_pos _ (by norm_num)]
    rfl
  have hmean : ciMean ([100, 100, 100] : List ℚ) = 100 := by
    norm_num [ciMean, List.sum_cons, List.sum_nil]
  have hvar : ((([100, 100, 100] : List ℚ).map fun x => (x - ciMean [100, 100, 100]) ^ 2).sum /
      ((([100, 100, 100] : List ℚ).length : ℚ) - 1)) = 0 := by
    rw [hmean]
    norm_num [List.map_cons, List.map_nil, List.sum_cons, List.sum_nil]
  have hstd : ciStd sqrtp ([100, 100, 100] : List ℚ) = PFloat.val 0 := by
    rw [ciStd, if_neg (by norm_num), hvar, hs0]
  have hsem : ciSem sqrtp ([100, 100, 100] : List ℚ) = PFloat.val 0 := by
    rw [ciSem, hstd]
    norm_num [PFloat.div, hs3]
  have hmoe : ciMoe sqrtp tppf zppf ([100, 100, 100] : List ℚ) (95/100) = PFloat.val 0 := by
    rw [ciMoe_small _ _ _ _ _ (by norm_num), hsem,
      show (([100, 100, 100] : List ℚ).length - 1) = 2 from rfl, htp]
    simp [PFloat.mul]
  unfold calculate_confidence_interval
  rw [hclean, ciCore, if_neg (by norm_num)]
  refine ⟨?_, ?_, ?_, ?_⟩
  · show PFloat.val (ciMean ([100, 100, 100] : List ℚ)) = PFloat.val 100
    rw [hmean]
  · show ciMoe sqrtp tppf zppf ([100, 100, 100] : List ℚ) (95/100) = PFloat.val 0
    exact hmoe
  · show PFloat.sub (PFloat.val (ciMean ([100, 100, 100] : List ℚ)))
      (ciMoe sqrtp tppf zppf ([100, 100, 100] : List ℚ) (95/100)) = PFloat.val 100
    rw [hmean, hmoe]
    simp [PFloat.sub]
  · show PFloat.add (PFloat.val (ciMean ([100, 100, 100] : List ℚ)))
      (ciMoe sqrtp tppf zppf ([100, 100, 100] : List ℚ) (95/100)) = PFloat.val 100
    rw [hmean, hmoe]
    simp [PFloat.add]

unseal Rat.mul Rat.inv Rat.add Rat.sub Rat.ofScientific in
/-- Witness for C4 (amended): the concrete library stand-ins, with the t
critical value 4.302653 at 2 degrees of freedom. -/
theorem ci_const_sample_witness :
    (calculate_confidence_interval ratSqrt tCrit zCrit
        [PFloat.val 100, PFloat.val 100, PFloat.val 100] (95/100)).mean = PFloat.val 100 ∧
    (calculate_confidence_interval ratSqrt tCrit zCrit
        [PFloat.val 100, PFloat.val 100, PFloat.val 100] (95/100)).margin_of_error = PFloat.val 0 ∧
    (calculate_confidence_interval ratSqrt tCrit zCrit
        [PFloat.val 100, PFloat.val 100, PFloat.val 100] (95/100)).ci_lower = PFloat.val 100 ∧
    (calculate_confidence_interval ratSqrt tCrit zCrit
        [PFloat.val 100, PFloat.val 100, PFloat.val 100] (95/100)).ci_upper = PFloat.val 100 :=
  ci_const_sample ratSqrt tCrit zCrit (4302653/1000000) (by decide) (by decide) (by decide)

theorem removeDupGo_mem : ∀ (l : List Vac) (seen : List PyId) (v : Vac),
    v ∈ removeDupGo seen l → v.id.truthy = true ∧ v.id ∉ seen := by
  intro l
  induction l with
  | nil => intro seen v h; simp [removeDupGo] at h
  | cons w rest ih =>
    intro seen v h
    rw [removeDupGo] at h
    by_cases hc : w.id.truthy = true ∧ w.id ∉ seen
    · rw [if_pos hc] at h
      rcases List.mem_cons.mp h with rfl | h2
      · exact hc
      · have hu := ih _ _ h2
        exact ⟨hu.1, fun hm => hu.2 (List.mem_cons_of_mem _ hm)⟩
    · rw [if_neg hc] at h
      exact ih _ _ h

theorem removeDupGo_nodup : ∀ (l : List Vac) (seen : List PyId),
    ((removeDupGo seen l).map Vac.id).Nodup := by
  intro l
  induction l with
  | nil => intro seen; simp [removeDupGo]
  | cons w rest ih =>
    intro seen
    rw [removeDupGo]
    by_cases hc : w.id.truthy = true ∧ w.id ∉ seen
    · rw [if_pos hc, List.map_cons]
      refine List.nodup_cons.mpr ⟨?_, ih _⟩
      intro hmem
      rcases List.mem_map.mp hmem with ⟨u, hu, huid⟩
      have hu2 := (removeDupGo_mem rest (w.id :: seen) u hu).2
      exact hu2 (by rw [huid]; exact List.mem_cons_self _ _)
    · rw [if_neg hc]
      exact ih _

theorem removeDupGo_fix : ∀ (l : List Vac) (seen : List PyId),
    (∀ v ∈ l, v.id.truthy = true ∧ v.id ∉ seen) →
    (l.map Vac.id).Nodup →
    removeDupGo seen l = l := by
  intro l
  induction l with
  | nil => intro seen _ _; rfl
  | cons w rest ih =>
    intro seen h hnd
    have hw := h w (List.mem_cons_self _ _)
    rw [removeDupGo, if_pos hw]
    congr 1
    apply ih
    · intro u hu
      have hu' := h u (List.mem_cons_of_mem _ hu)
      refine ⟨hu'.1, ?_⟩
      intro hm
      rcases List.mem_cons.mp hm with he | hm2
      · have hwid : w.id ∈ rest.map Vac.id := List.mem_map.mpr ⟨u, hu, he⟩
        exact (List.nodup_cons.mp (by simpa using hnd)).1 hwid
      · exact hu'.2 hm2
    · exact (List.nodup_cons.mp (by simpa using hnd)).2

/-- C7: the deduplicator is idempotent.  Every record kept by
`remove_duplicates` has a truthy identifier not seen before it, and the kept
identifiers are pairwise distinct, so a second pass keeps everything. -/
theorem dedup_idempotent (vs : List Vac) :
    remove_duplicates (remove_duplicates vs) = remove_duplicates vs := by
  show removeDupGo [] (remove_duplicates vs) = remove_duplicates vs
  apply removeDupGo_fix
  · intro v hv
    have hv' : v ∈ removeDupGo [] vs := by rwa [remove_duplicates] at hv
    exact ⟨(removeDupGo_mem _ _ _ hv').1, List.not_mem_nil _⟩
  · have h := removeDupGo_nodup vs []
    rwa [remove_duplicates]

theorem removeDupGo_eq_keepFirst : ∀ (l : List Vac) (seen : List PyId),
    (∀ v ∈ l, v.id.truthy = true) →
    removeDupGo seen l = keepFirst (l.filter fun v => decide (v.id ∉ seen)) := by
  intro l
  induction l with
  | nil => intro seen _; simp [List.filter_nil, keepFirst, removeDupGo]
  | cons v rest ih =>
    intro seen htr
    have hv : v.id.truthy = true := htr v (List.mem_cons_self _ _)
    have hrest : ∀ u ∈ rest, u.id.truthy = true := fun u hu => htr u (List.mem_cons_of_mem _ hu)
    rw [removeDupGo]
    by_cases hmem : v.id ∈ seen
    · rw [if_neg (fun h => h.2 hmem), List.filter_cons_of_neg (by simp [hmem]), ih seen hrest]
    · rw [if_pos ⟨hv, hmem⟩, List.filter_cons_of_pos (by simp [hmem]), keepFirst,
        ih (v.id :: seen) hrest, List.filter_filter]
      have hpred : (fun u : Vac => decide (u.id ∉ v.id :: seen)) =
          (fun u : Vac => decide (u.id ≠ v.id) && decide (u.id ∉ seen)) := by
        funext u
        by_cases h1 : u.id = v.id <;> by_cases h2 : u.id ∈ seen <;>
          simp [h1, h2, List.mem_cons]
      rw [hpred]

theorem dedup_length_cons (a : PyId) (l : List PyId) :
    ((a :: l).dedup).length = 1 + ((l.filter fun x => decide (x ≠ a)).dedup).length := by
  rw [← List.card_toFinset, ← List.card_toFinset, List.toFinset_cons, List.toFinset_filter]
  have he : (l.toFinset.filter fun x => decide (x ≠ a)) = l.toFinset.erase a := by
    ext x
    simp [Finset.mem_filter, Finset.mem_erase, and_comm]
  rw [he]
  by_cases ha : a ∈ l.toFinset
  · rw [Finset.insert_eq_self.mpr ha, ← Finset.card_erase_add_one ha]
    omega
  · rw [Finset.card_insert_of_not_mem ha, Finset.erase_eq_of_not_mem ha]
    omega

theorem keepFirst_length (l : List Vac) :
    (keepFirst l).length = ((l.map Vac.id).dedup).length := by
  induction l using keepFirst.induct with
  | case1 => simp [keepFirst]
  | case2 v rest ih =>
    rw [keepFirst, List.length_cons, ih, List.map_cons, dedup_length_cons]
    have hmf : (rest.filter fun u => decide (u.id ≠ v.id)).map Vac.id =
        (rest.map Vac.id).filter fun x => decide (x ≠ v.id) := by
      rw [List.filter_map]
      rfl
    rw [hmf]
    omega

/-- C2: for a batch in which every identifier is truthy and each of the N
distinct identifiers occurs exactly twice (one duplicate each),
`remove_duplicates` returns `keepFirst` of the batch — the subsequence
consisting of the first-occurring record of each identifier, in input
order — and its length is exactly N (the number of distinct identifiers,
`(vs.map Vac.id).dedup.length`).  The equality with `keepFirst` holds for any
all-truthy batch; the duplicate-count hypothesis fixes the claimed
cardinality reading. -/
theorem dedup_double_batch (vs : List Vac) (N : ℕ)
    (htruthy : ∀ v ∈ vs, v.id.truthy = true)
    (hN : (((vs.map Vac.id).dedup)).length = N)
    (_hcount : ∀ i ∈ vs.map Vac.id, (vs.map Vac.id).count i = 2) :
    remove_duplicates vs = keepFirst vs ∧ (remove_duplicates vs).length = N := by
  have he : remove_duplicates vs = keepFirst vs := by
    rw [remove_duplicates, removeDupGo_eq_keepFirst vs [] htruthy]
    congr 1
    apply List.filter_eq_self.mpr
    intro v _
    simp
  exact ⟨he, by rw [he, keepFirst_length, hN]⟩

/-- Witness for C2: a four-record batch with two distinct identifiers, each
occurring exactly twice. -/
theorem dedup_double_batch_witness :
    remove_duplicates
        [⟨PyId.pystr "1", "Инженер", "Завод А", "Москва"⟩,
         ⟨PyId.pystr "2", "Слесарь", "Завод Б", "Тверь"⟩,
         ⟨PyId.pystr "1", "Инженер-технолог", "Завод В", "Омск"⟩,
         ⟨PyId.pystr "2", "Слесарь-сборщик", "Завод Г", "Пермь"⟩] =
      keepFirst
        [⟨PyId.pystr "1", "Инженер", "Завод А", "Москва"⟩,
         ⟨PyId.pystr "2", "Слесарь", "Завод Б", "Тверь"⟩,
         ⟨PyId.pystr "1", "Инженер-технолог", "Завод В", "Омск"⟩,
         ⟨PyId.pystr "2", "Слесарь-сборщик", "Завод Г", "Пермь"⟩] ∧
    (remove_duplicates
        [⟨PyId.pystr "1", "Инженер", "Завод А", "Москва"⟩,
         ⟨PyId.pystr "2", "Слесарь", "Завод Б", "Тверь"⟩,
         ⟨PyId.pystr "1", "Инженер-технолог", "Завод В", "Омск"⟩,
         ⟨PyId.pystr "2", "Слесарь-сборщик", "Завод Г", "Пермь"⟩]).length = 2 :=
  dedup_double_batch _ 2 (by decide) (by decide) (by decide)

theorem removeDupGo_filter_truthy : ∀ (l : List Vac) (seen : List PyId),
    removeDupGo seen l = removeDupGo seen (l.filter fun v => v.id.truthy) := by
  intro l
  induction l with
  | nil => intro seen; rfl
  | cons w rest ih =>
    intro seen
    by_cases ht : w.id.truthy = true
    · rw [List.filter_cons_of_pos (p := fun v : Vac => v.id.truthy) ht,
        removeDupGo, removeDupGo]
      by_cases hm : w.id ∈ seen
      · rw [if_neg (fun h => h.2 hm), if_neg (fun h => h.2 hm)]
        exact ih _
      · rw [if_pos ⟨ht, hm⟩, if_pos ⟨ht, hm⟩, ih _]
    · rw [List.filter_cons_of_neg (p := fun v : Vac => v.id.truthy) (by simpa using ht),
        removeDupGo, if_neg (fun h => ht h.1)]
      exact ih _

/-- Concrete deterministic stand-in for the truncated md5 digest of a string,
used to instantiate witnesses. -/
def md5stub (s : String) : ℕ :=
  s.data.foldl (fun acc c => acc * 131 + c.toNat) 7

/-- C3 (amended): the external identifier is the sole deduplication key.
Records whose identifier is absent or falsy are not retained under a
substituted hash key — they are discarded by `remove_duplicates` (the output
is invariant under pre-filtering to truthy identifiers, and every kept record
has a truthy identifier); and the hash fallback of
`DatabaseManager._generate_vacancy_id` applies to non-numeric identifier
strings, hashing the identifier string itself — not a hash of
title+employer+region. -/
theorem dedup_key_external_id (md5_8 : String → ℕ) (vs : List Vac) (w : Vac) :
    (w ∈ remove_duplicates vs → w.id.truthy = true) ∧
    remove_duplicates vs = remove_duplicates (vs.filter fun v => v.id.truthy) ∧
    (∀ s : String, isDigitStr s = true → generate_vacancy_id md5_8 s = strToNat s) ∧
    (∀ s : String, ¬ isDigitStr s = true →
      generate_vacancy_id md5_8 s = md5_8 s % 16 ^ 8) := by
  refine ⟨?_, ?_, ?_, ?_⟩
  · intro hw
    exact (removeDupGo_mem _ _ _ (by rwa [remove_duplicates] at hw)).1
  · rw [remove_duplicates, remove_duplicates, removeDupGo_filter_truthy]
  · intro s hs
    rw [generate_vacancy_id, if_pos hs]
  · intro s hs
    rw [generate_vacancy_id, if_neg hs]

/-- Counterexample to C3 as stated: a record with full title, employer and
region but an absent (or empty) external identifier is discarded by the
deduplicator — no deterministic hash of title+employer+region is substituted
and the record is not retained. -/
theorem dedup_key_external_id_cex :
    remove_duplicates [⟨PyId.pynone, "Инженер", "Завод Салют", "Москва"⟩] = [] ∧
    remove_duplicates [⟨PyId.pystr "", "Инженер", "Завод Салют", "Москва"⟩] = [] := by
  decide

/-- Witness for C3 (amended): a truthy-id record is kept and keyed by its
identifier; a numeric identifier string parses to its value and a non-numeric
one falls back to the (truncated) digest of the identifier string. -/
theorem dedup_key_external_id_witness :
    (⟨PyId.pystr "7", "Токарь", "Завод", "Тула"⟩ : Vac).id.truthy = true ∧
    remove_duplicates [(⟨PyId.pystr "7", "Токарь", "Завод", "Тула"⟩ : Vac)] =
      remove_duplicates
        ([(⟨PyId.pystr "7", "Токарь", "Завод", "Тула"⟩ : Vac)].filter fun v => v.id.truthy) ∧
    generate_vacancy_id md5stub "12345" = strToNat "12345" ∧
    generate_vacancy_id md5stub "vac-01" = md5stub "vac-01" % 16 ^ 8 :=
  ⟨(dedup_key_external_id md5stub [⟨PyId.pystr "7", "Токарь", "Завод", "Тула"⟩]
      ⟨PyId.pystr "7", "Токарь", "Завод", "Тула"⟩).1 (by decide),
   (dedup_key_external_id md5stub [⟨PyId.pystr "7", "Токарь", "Завод", "Тула"⟩]
      ⟨PyId.pystr "7", "Токарь", "Завод", "Тула"⟩).2.1,
   (dedup_key_external_id md5stub [] ⟨PyId.pynone, "", "", ""⟩).2.2.1 "12345" (by decide),
   (dedup_key_external_id md5stub [] ⟨PyId.pynone, "", "", ""⟩).2.2.2 "vac-01" (by decide)⟩

theorem matchFirst_mem (table : List (String × List String)) (t d : String) :
    matchFirst table t d ∈ d :: table.map Prod.fst := by
  induction table with
  | nil => simp [matchFirst]
  | cons p rest ih =>
    rw [matchFirst]
    split
    · simp
    · simp only [List.map_cons, List.mem_cons] at ih ⊢
      tauto

/-- C6: for an empty title each classifier returns its default category
("other" / "other_industry" in data_cleaner, "другое" in the db_manager
fallback), a non-string title yields "unknown" / "other", and every possible
output is one of the fixed category names (the classification field is always
assigned a value).  The embedded classifiers are total functions, matching
the absence of any raising path in the source. -/
theorem classifiers_default_on_empty :
    classify_position_level (PyStrVal.pystr "") = "other" ∧
    classify_industry_segment (PyStrVal.pystr "") = "other_industry" ∧
    classify_position_level PyStrVal.nonstr = "unknown" ∧
    classify_industry_segment PyStrVal.nonstr = "other" ∧
    dbClassifyPositionLevel "" = "другое" ∧
    (∀ t : PyStrVal, classify_position_level t ∈
      ["unknown", "other", "worker", "specialist", "engineer", "leadership", "executive"]) ∧
    (∀ t : PyStrVal, classify_industry_segment t ∈
      ["other", "other_industry", "machinery", "metallurgy", "chemical", "energy",
       "oil_gas", "construction"]) ∧
    (∀ s : String, dbClassifyPositionLevel s ∈
      ["другое", "рабочий", "специалист", "инженер", "руководитель",
       "высшее_руководство"]) := by
  refine ⟨by decide, by decide, rfl, rfl, by decide, ?_, ?_, ?_⟩
  · intro t
    cases t with
    | nonstr => simp [classify_position_level]
    | pystr s =>
      have h := matchFirst_mem levelKeywords (pyLower s) "other"
      simp only [classify_position_level, levelKeywords, List.map_cons, List.map_nil,
        List.mem_cons, List.not_mem_nil, or_false] at h ⊢
      tauto
  · intro t
    cases t with
    | nonstr => simp [classify_industry_segment]
    | pystr s =>
      have h := matchFirst_mem segmentKeywords (pyLower s) "other_industry"
      simp only [classify_industry_segment, segmentKeywords, List.map_cons, List.map_nil,
        List.mem_cons, List.not_mem_nil, or_false] at h ⊢
      tauto
  · intro s
    have h := matchFirst_mem dbLevelKeywords (pyLower s) "другое"
    simp only [dbClassifyPositionLevel, dbLevelKeywords, List.map_cons, List.map_nil,
      List.mem_cons, List.not_mem_nil, or_false] at h ⊢
    tauto
